import Mathlib

/-!
# Verification of the data-fetch-and-reconcile layer of the Nile dashboard

Shallow embedding of the retry-with-backoff fetch wrapper, the credential
resolution heuristics, the authenticated-header builder, the device
authorization workflow, the useFetch hook state machine, and the
hierarchical grouping/sorting transforms, together with theorems settling
the specification claims about them.

All definitions are translated from the TypeScript source of the
repository; source locations are given in the doc comments.
-/

set_option maxRecDepth 4000

/-! ## Retrying fetch with randomized backoff

Embeds the retry loops of `fetchRawFloorsData` (floor page, the
`while (retryCount <= MAX_RETRIES)` loop) and `fetchClientData` (clients
page).  An attempt's outcome is either an HTTP response with a status code
and a parsed body, or a thrown network-level error carrying its `name`
property.  The random source `Math.random()` is modelled as a stream of
rationals, one sample consumed per backoff wait; the wait before a retry is
`Math.random() * 4 + 1` seconds.
-/

/-- Outcome of one invocation of the fetch primitive: an HTTP response
(status plus the body that `response.json()` would produce) or a thrown
error whose `name` property is recorded (network failures have name
`TypeError` in browsers). -/
inductive Outcome (α : Type) where
  | http (status : Nat) (body : α)
  | netError (name : String)
  deriving DecidableEq

/-- The errors the retry loop can throw:
`authExhausted n` models `Error` with message built from the retry ceiling
after the retryable-status ceiling is hit, `httpStatus s` models the
`HTTP error! status: s` throw, and `network name` a rethrown fetch-level
error. -/
inductive RetryErr where
  | authExhausted (maxRetries : Nat)
  | httpStatus (status : Nat)
  | network (name : String)
  deriving DecidableEq

/-- Result of the whole loop: `success body` when a 2xx response was parsed
and stored, `loopExit` when the `while` guard becomes false with
`responseData` still null (unreachable from the top-level call), and
`failure e` when an error propagates out of the loop. -/
inductive RetryResult (α : Type) where
  | success (body : α)
  | loopExit
  | failure (e : RetryErr)
  deriving DecidableEq

/-- Observable run of the loop: final result, the number of invocations of
the fetch primitive, and the list of backoff delays (in seconds) waited in
order. -/
structure RunOut (α : Type) where
  result : RetryResult α
  calls : Nat
  delays : List ℚ
  deriving DecidableEq

/-- One-to-one translation of the `while (retryCount <= MAX_RETRIES)` loop
shared by `fetchRawFloorsData` and `fetchClientData`.  `retryOn` is the
status predicate of the first branch (`s === 401` on the floors page,
`s === 401 || s === 400` on the clients page); `attempt i` is the outcome
of the fetch made in the iteration with `retryCount = i`; `rand j` is the
`Math.random()` sample drawn before the `(j+1)`-th retry.  The fuel
argument counts the remaining iterations the guard allows
(`maxRetries + 1 - retryCount`); fuel `0` is the guard turning false. -/
def retryLoop (retryOn : Nat → Bool) (maxRetries : Nat)
    (attempt : Nat → Outcome α) (rand : Nat → ℚ) :
    Nat → Nat → RunOut α
  | 0, _ => ⟨RetryResult.loopExit, 0, []⟩
  | fuel + 1, rc =>
    let d : List ℚ := if rc > 0 then [rand (rc - 1) * 4 + 1] else []
    match attempt rc with
    | Outcome.http s body =>
      if retryOn s then
        if rc + 1 ≤ maxRetries then
          let r := retryLoop retryOn maxRetries attempt rand fuel (rc + 1)
          ⟨r.result, r.calls + 1, d ++ r.delays⟩
        else ⟨RetryResult.failure (RetryErr.authExhausted maxRetries), 1, d⟩
      else if 200 ≤ s ∧ s < 300 then ⟨RetryResult.success body, 1, d⟩
      else ⟨RetryResult.failure (RetryErr.httpStatus s), 1, d⟩
    | Outcome.netError name =>
      if name = "TypeError" ∧ rc < maxRetries then
        let r := retryLoop retryOn maxRetries attempt rand fuel (rc + 1)
        ⟨r.result, r.calls + 1, d ++ r.delays⟩
      else ⟨RetryResult.failure (RetryErr.network name), 1, d⟩

/-- `const MAX_RETRIES = 5` (both call sites). -/
def MAX_RETRIES : Nat := 5

/-- The retry loop of `fetchRawFloorsData` on the floor page: retries on
status 401 only. -/
def fetchRawFloorsRetry (attempt : Nat → Outcome α) (rand : Nat → ℚ) : RunOut α :=
  retryLoop (fun s => s == 401) MAX_RETRIES attempt rand (MAX_RETRIES + 1) 0

/-- The retry loop of `fetchClientData` on the clients page: retries on
status 401 or 400. -/
def fetchClientRetry (attempt : Nat → Outcome α) (rand : Nat → ℚ) : RunOut α :=
  retryLoop (fun s => s == 401 || s == 400) MAX_RETRIES attempt rand (MAX_RETRIES + 1) 0

/-! ## Stored API credentials and credential resolution -/

/-- The `ApiKey` record of `services/auth.ts` (fields `url`, `validBefore`
and `tenantId` are optional in the TypeScript interface). -/
structure ApiKey where
  id : String
  name : String
  key : String
  service : String
  url : Option String := none
  validBefore : Option String := none
  tenantId : Option String := none
  deriving DecidableEq

/-- Model of JavaScript's `String.prototype.toLowerCase` for basic latin
strings: lowercases each character. -/
def jsToLower (s : String) : String := ⟨s.toList.map Char.toLower⟩

/-- Model of JavaScript's `String.prototype.includes`: true when `pat`
occurs as a contiguous substring of `s`. -/
def jsIncludes (s pat : String) : Bool := decide (pat.toList <:+: s.toList)

/-- Credential resolution of `fetchRawFloorsData` on the floor page:
first an exact `key.service === 'Nile'` match, else a
`key.service.toLowerCase().includes('nile')` match, else the first key when
the list is nonempty.  `none` models the path that surfaces the
"No API keys found. Please add a Nile API key in your profile." error. -/
def findNileApiKeyFloors (apiKeys : List ApiKey) : Option ApiKey :=
  let exact := apiKeys.find? (fun k => k.service == "Nile")
  let withSubstr :=
    match exact with
    | some k => some k
    | none => apiKeys.find? (fun k => jsIncludes (jsToLower k.service) "nile")
  match withSubstr with
  | some k => some k
  | none => if apiKeys.length > 0 then apiKeys.head? else none

/-- Credential resolution of `fetchClientData` on the clients page: a
single pass with the disjunctive predicate
`key.service === 'Nile' || key.service.toLowerCase().includes('nile')`,
else the first key when the list is nonempty. -/
def findNileApiKeyClients (apiKeys : List ApiKey) : Option ApiKey :=
  let found :=
    apiKeys.find? (fun k => k.service == "Nile" || jsIncludes (jsToLower k.service) "nile")
  match found with
  | some k => some k
  | none => if apiKeys.length > 0 then apiKeys.head? else none

/-- A stored credential whose service label matches nothing Nile-related. -/
def otherKey : ApiKey :=
  { id := "k1", name := "other", key := "secret-other", service := "Other" }

/-- A stored credential whose service label contains "nile" as a substring
without being an exact match. -/
def backupKey : ApiKey :=
  { id := "k2", name := "backup", key := "secret-backup", service := "nile-backup" }

/-- A stored credential whose service label is exactly "Nile". -/
def nileKey : ApiKey :=
  { id := "k3", name := "nile", key := "secret-nile", service := "Nile" }

/-- A stored credential unrelated to Nile, used for the first-available
fallback. -/
def fooKey : ApiKey :=
  { id := "k4", name := "foo", key := "secret-foo", service := "Foo" }

/-! ## Session, header building and the backend API calls -/

/-- The Cognito session exposed by `getCurrentSession` in services/auth.ts:
only the id token's JWT string matters to this layer. -/
structure CognitoSession where
  idTokenJwt : String
  deriving DecidableEq

/-- JavaScript coalescing `v || null` on an optional string: empty strings
are falsy and collapse to null. -/
def jsStringOrNull (s : Option String) : Option String :=
  match s with
  | some t => if t = "" then none else some t
  | none => none

/-- `getJwtToken` of services/auth.ts:
`session?.getIdToken().getJwtToken() || null`. -/
def getJwtToken (session : Option CognitoSession) : Option String :=
  jsStringOrNull (session.map (fun s => s.idTokenJwt))

/-- `fetchApiKeys` of services/apiKeyApi.ts up to its network call: without
a token it throws "User is not authenticated" before any request is made;
otherwise the outcome is whatever the credential-store backend returned
(`remote`). -/
def fetchApiKeysResult (token : Option String) (remote : Except String (List ApiKey)) :
    Except String (List ApiKey) :=
  match token with
  | none => Except.error "User is not authenticated"
  | some _ => remote

/-- `getUserApiKeys` of services/auth.ts: the fetched list, or `[]` for any
error (its catch block swallows everything). -/
def getUserApiKeys (token : Option String) (remote : Except String (List ApiKey)) :
    List ApiKey :=
  match fetchApiKeysResult token remote with
  | Except.ok keys => keys
  | Except.error _ => []

/-- JS truthiness of `key.tenantId` in `apiKeys.find(key => key.tenantId)`
(services/api.ts). -/
def hasTenantId (k : ApiKey) : Bool :=
  match k.tenantId with
  | some t => t ≠ ""
  | none => false

/-- `getApiKeyAndTenantId` of services/api.ts: the first key with a truthy
tenant id wins; else the first key (with null tenant id); else both null.
Errors never escape (`getUserApiKeys` already returns `[]` on failure). -/
def getApiKeyAndTenantId (token : Option String) (remote : Except String (List ApiKey)) :
    Option String × Option String :=
  let apiKeys := getUserApiKeys token remote
  match apiKeys.find? hasTenantId with
  | some k => (some k.key, jsStringOrNull k.tenantId)
  | none =>
    match apiKeys with
    | [] => (none, none)
    | k :: _ => (some k.key, none)

/-- The header record assembled by `getApiHeaders` of services/api.ts. -/
structure Headers where
  contentType : String
  authorization : Option String
  xApiKey : Option String
  xTenantId : Option String
  deriving DecidableEq

/-- `getApiHeaders` of services/api.ts: always sets Content-Type, adds the
Bearer token only if one exists, adds x-api-key and x-tenant-id only if the
selection produced them.  There is no failure path. -/
def getApiHeaders (session : Option CognitoSession) (remote : Except String (List ApiKey)) :
    Headers :=
  let token := getJwtToken session
  let h1 : Headers :=
    { contentType := "application/json", authorization := none,
      xApiKey := none, xTenantId := none }
  let h2 :=
    match token with
    | some t => { h1 with authorization := some ("Bearer " ++ t) }
    | none => h1
  let p := getApiKeyAndTenantId token remote
  let h3 :=
    match p.1 with
    | some k => { h2 with xApiKey := some k }
    | none => h2
  match p.2 with
  | some t => { h3 with xTenantId := some t }
  | none => h3

/-- A request to the application's own backend. -/
structure ApiRequest where
  url : String
  headers : Headers
  deriving DecidableEq

/-- Any of the GET wrappers of services/api.ts (fetchTree, fetchSites,
fetchBuildings, fetchFloors, fetchSegments, fetchDevices): awaits
`getApiHeaders`, then unconditionally issues the request.  `Except.error`
would model a throw happening before the request; the code has no such
path, so the result is always `Except.ok` with the issued request. -/
def apiGetRequest (endpoint : String) (session : Option CognitoSession)
    (remote : Except String (List ApiKey)) : Except String ApiRequest :=
  Except.ok { url := endpoint, headers := getApiHeaders session remote }

/-! ## Device authorization workflow -/

/-- Parameters of `authorizeDevice` (services/api.ts). -/
structure DeviceAuthorizationParams where
  deviceId : String
  macAddress : String
  segmentId : String
  status : String
  description : String
  deriving DecidableEq

/-- The payload `authorizeDevice` sends to the authorization endpoint. -/
structure AuthPayload where
  clientId : String
  macAddress : String
  segmentId : String
  state : String
  description : String
  deriving DecidableEq

/-- The network calls `authorizeDevice` can make, in order: the
credential-store GET performed inside `getApiHeaders` (via
`getUserApiKeys` → `fetchApiKeys`), and the PATCH to the authorization
endpoint. -/
inductive NetCall where
  | apiKeysFetch
  | authPatch (headers : Headers) (payload : AuthPayload)
  deriving DecidableEq

/-- The network calls made while `getApiHeaders` runs: `fetchApiKeys`
issues its GET exactly when a session token exists (with no token it
throws before requesting anything and `getUserApiKeys` swallows the
error). -/
def getApiHeadersCalls (session : Option CognitoSession) : List NetCall :=
  match getJwtToken session with
  | some _ => [NetCall.apiKeysFetch]
  | none => []

/-- The status → lambda-state mapping inside `authorizeDevice`:
"Approved" → "AUTH_OK", "Denied" → "AUTH_DENIED", anything else throws
`Invalid status provided: ...`. -/
def mapStatusToLambdaState (status : String) : Except String String :=
  if status = "Approved" then Except.ok "AUTH_OK"
  else if status = "Denied" then Except.ok "AUTH_DENIED"
  else Except.error ("Invalid status provided: " ++ status)

/-- `authorizeDevice` of services/api.ts: first awaits `getApiHeaders`
(whose credential-store fetch has then already happened when a session
exists), then maps the status — throwing on an unmapped one — and
otherwise issues a single PATCH with the transformed payload.  Returns the
ordered trace of network calls and the outcome. -/
def authorizeDevice (session : Option CognitoSession) (remote : Except String (List ApiKey))
    (params : DeviceAuthorizationParams) : List NetCall × Except String AuthPayload :=
  let headers := getApiHeaders session remote
  let calls := getApiHeadersCalls session
  match mapStatusToLambdaState params.status with
  | Except.error e => (calls, Except.error e)
  | Except.ok lambdaState =>
    let payload : AuthPayload :=
      { clientId := params.deviceId, macAddress := params.macAddress,
        segmentId := params.segmentId, state := lambdaState,
        description := params.description }
    (calls ++ [NetCall.authPatch headers payload], Except.ok payload)

/-- Authorization parameters whose status is neither "Approved" nor
"Denied". -/
def pendingParams : DeviceAuthorizationParams :=
  { deviceId := "d1", macAddress := "aa:bb:cc:dd:ee:ff", segmentId := "s1",
    status := "Pending", description := "test device" }

/-! ## The useFetch hook -/

/-- The observable state of the useFetch hook (hooks/useFetch.ts):
`data`, `loading`, `error`. -/
structure FetchState (T : Type) where
  data : Option T
  loading : Bool
  error : Option String
  deriving DecidableEq

/-- The state while a run is in flight (after `setLoading(true)` and
`setError(null)`): data from the previous run, loading, no error. -/
def useFetchInitial (T : Type) : FetchState T :=
  { data := none, loading := true, error := none }

/-- How the promise returned by `fetchFn()` settles: fulfilled with a
value, rejected with an `Error` (its `name` and `message`), or rejected
with a non-`Error` value. -/
inductive FetchSettle (T : Type) where
  | success (v : T)
  | errThrown (name : String) (msg : String)
  | nonErrorThrow
  deriving DecidableEq

/-- The hook state after `fetchData` in useFetch.ts settles, starting from
`prev` (the state at settlement time, whose `data` is the previous run's
value).  The effect's cleanup calls `controller.abort()`, but the
destructured `signal` is never passed to `fetchFn`, so whether the cleanup
ran before resolution (`aborted`) cannot influence the run: the underlying
fetch is not cancelled and settles on its own.  An `AbortError`-named
rejection returns early (no `setError`, no `setData`); any other `Error`
sets the error message and clears data; the `finally` always clears
loading. -/
def useFetchRun (T : Type) (prev : FetchState T) (aborted : Bool)
    (outcome : FetchSettle T) : FetchState T :=
  match outcome with
  | FetchSettle.success v => { data := some v, loading := false, error := none }
  | FetchSettle.errThrown nm msg =>
    if nm = "AbortError" then { data := prev.data, loading := false, error := none }
    else { data := none, loading := false, error := some msg }
  | FetchSettle.nonErrorThrow =>
    { data := none, loading := false, error := some "An unexpected error occurred" }

/-! ## Hierarchical grouping and sorting

Embeds the `groupedAndSortedData` useMemo of devices/page.tsx and the
`groupedAndSortedClientData` useMemo of the clients page.  JavaScript `Map`
objects iterate in insertion order and `Map.set` updates a present key in
place, so they are modelled as association lists with those semantics.
-/

/-- JS string coalescing `v || dflt`: an absent or empty string falls back
to the default. -/
def jsOr (v : Option String) (dflt : String) : String :=
  match v with
  | some s => if s = "" then dflt else s
  | none => dflt

/-- `Map.prototype.get`: the value stored at `k`, if any. -/
def mapGet {β : Type} (m : List (String × β)) (k : String) : Option β :=
  match m with
  | [] => none
  | (k', v) :: rest => if k' = k then some v else mapGet rest k

/-- `Map.prototype.set`: update the value in place if the key is present,
else append the new entry, preserving insertion order. -/
def mapSet {β : Type} (m : List (String × β)) (k : String) (v : β) :
    List (String × β) :=
  match m with
  | [] => [(k, v)]
  | (k', v') :: rest => if k' = k then (k, v) :: rest else (k', v') :: mapSet rest k v

/-- Primary collation weight of an ASCII character under the default (root)
collation used by `String.prototype.localeCompare`: symbols sort before
digits before letters, and letters compare with case folded. -/
def primaryWeight (c : Char) : Nat :=
  if c.isUpper then 1000 + (c.toNat + 32)
  else if c.isLower then 1000 + c.toNat
  else if c.isDigit then 500 + c.toNat
  else c.toNat

/-- Case (tertiary) collation weight: lowercase before uppercase. -/
def caseWeight (c : Char) : Nat := if c.isUpper then 1 else 0

/-- Lexicographic comparison of weight lists. -/
def lexCompareNat : List Nat → List Nat → Ordering
  | [], [] => Ordering.eq
  | [], _ :: _ => Ordering.lt
  | _ :: _, [] => Ordering.gt
  | a :: as, b :: bs =>
    if a < b then Ordering.lt
    else if b < a then Ordering.gt
    else lexCompareNat as bs

/-- Sequential composition of comparisons: the second decides only when
the first ties. -/
def ordThen (o1 o2 : Ordering) : Ordering :=
  match o1 with
  | Ordering.eq => o2
  | o => o

/-- An `Ordering` as the conventional -1/0/1 comparator integer. -/
def ordToInt (o : Ordering) : Int :=
  match o with
  | Ordering.lt => -1
  | Ordering.eq => 0
  | Ordering.gt => 1

/-- Model of `String.prototype.localeCompare` under the default collation,
restricted to ASCII strings: the whole strings are compared at primary
strength first (case-insensitively for letters), and only a full primary
tie is broken by case, lowercase first — e.g. "a0" sorts before "B0",
unlike code-unit order. -/
def localeCompareO (a b : String) : Ordering :=
  ordThen (lexCompareNat (a.toList.map primaryWeight) (b.toList.map primaryWeight))
    (lexCompareNat (a.toList.map caseWeight) (b.toList.map caseWeight))

/-- `a.localeCompare(b)` as the conventional -1/0/1 integer. -/
def localeCompare (a b : String) : Int :=
  ordToInt (localeCompareO a b)

/-- The comparison the specification asserts for MAC sorting:
case-sensitive lexicographic (code-unit) order.  Stated from the claim's
words, for comparison against the source's `localeCompare`. -/
def codeUnitCompare (a b : String) : Int :=
  ordToInt (lexCompareNat (a.toList.map Char.toNat) (b.toList.map Char.toNat))

/-- Model of JavaScript's `Array.prototype.sort(cmp)`: ascending by the
comparator and stable.  For a comparator inducing a total preorder every
stable sort produces the same output, so insertion sort reproduces the
engine's result exactly. -/
def jsSortBy {α : Type} (cmp : α → α → Int) (l : List α) : List α :=
  List.insertionSort (fun a b => cmp a b ≤ 0) l

/-- The nested grouped structure: building key → floor key → items. -/
abbrev Grouped (α : Type) := List (String × List (String × List α))

/-- One step of the grouping forEach: resolve the item's building and floor
keys, create the missing maps/lists, and push the item at the end of its
floor list. -/
def groupStep {α : Type} (bKey fKey : α → String) (acc : Grouped α) (item : α) :
    Grouped α :=
  let b := bKey item
  let f := fKey item
  let inner := (mapGet acc b).getD []
  mapSet acc b (mapSet inner f (((mapGet inner f).getD []) ++ [item]))

/-- The grouping forEach over the whole item list. -/
def groupItems {α : Type} (bKey fKey : α → String) (items : List α) : Grouped α :=
  items.foldl (groupStep bKey fKey) []

/-- The fields of the `Building` record read when building the name lookup
(`bldg.bldgid`, `bldg.name`); optional because the code guards them with
`if (bldg.bldgid && bldg.name)`. -/
structure BuildingRec where
  bldgid : Option String
  name : Option String
  deriving DecidableEq

/-- The fields of the `Floor` record read when building the name lookup. -/
structure FloorRec where
  floorid : Option String
  name : Option String
  deriving DecidableEq

/-- `buildingNameMap` construction: skip entries with a falsy id or name. -/
def buildingNameMap (buildings : List BuildingRec) : List (String × String) :=
  buildings.foldl
    (fun m b =>
      match b.bldgid, b.name with
      | some bid, some nm => if bid ≠ "" ∧ nm ≠ "" then mapSet m bid nm else m
      | _, _ => m) []

/-- `floorNameMap` construction: skip entries with a falsy id or name. -/
def floorNameMap (floors : List FloorRec) : List (String × String) :=
  floors.foldl
    (fun m f =>
      match f.floorid, f.name with
      | some fid, some nm => if fid ≠ "" ∧ nm ≠ "" then mapSet m fid nm else m
      | _, _ => m) []

/-- The record returned by the useMemo: nested sorted structure, ordered
building keys, and the two name lookups. -/
structure GroupedResult (α : Type) where
  groupedData : Grouped α
  sortedBuildingKeys : List String
  bNameMap : List (String × String)
  fNameMap : List (String × String)
  deriving DecidableEq

/-- The in-place sort of every floor-level list by MAC address:
`floorList.sort((a, b) => a.macAddress.localeCompare(b.macAddress))`. -/
def sortFloorLists {α : Type} (mac : α → String) (g : Grouped α) : Grouped α :=
  g.map (fun p =>
    (p.1, p.2.map (fun q => (q.1, jsSortBy (fun a b => localeCompare (mac a) (mac b)) q.2))))

/-- The key sort `keys.sort((a, b) => (nameMap.get(a) || a).localeCompare(nameMap.get(b) || b))`
used for both building and floor keys. -/
def sortKeysByName (nm : List (String × String)) (ks : List String) : List String :=
  jsSortBy (fun a b => localeCompare (jsOr (mapGet nm a) a) (jsOr (mapGet nm b) b)) ks

/-- Rebuilding the nested structure in sorted key order: for each sorted
building key, look its floor map up, sort the floor keys, and re-insert
the floor lists in that order. -/
def rebuildInOrder {α : Type} (fnm : List (String × String)) (g : Grouped α)
    (sortedKeys : List String) : Grouped α :=
  sortedKeys.map (fun bId =>
    (bId, (sortKeysByName fnm (((mapGet g bId).getD []).map Prod.fst)).map
      (fun fId => (fId, (mapGet ((mapGet g bId).getD []) fId).getD []))))

/-- The shared body of `groupedAndSortedData` (devices/page.tsx) and
`groupedAndSortedClientData` (clients page) — the same algorithm applied to
devices resp. clients, with the item accessors as parameters instantiated
below exactly as each call site reads its items: group into
building → floor → list, sort each floor list by MAC with `localeCompare`,
sort building keys by resolved name (`nameMap.get(k) || k`) with
`localeCompare`, and rebuild the nested structure in sorted key order. -/
def groupAndSort {α : Type} (bKey fKey mac : α → String) (items : List α)
    (bnm fnm : List (String × String)) : GroupedResult α :=
  let grouped := sortFloorLists mac (groupItems bKey fKey items)
  let sortedBuildingKeys := sortKeysByName bnm (grouped.map Prod.fst)
  { groupedData := rebuildInOrder fnm grouped sortedBuildingKeys,
    sortedBuildingKeys := sortedBuildingKeys, bNameMap := bnm, fNameMap := fnm }

/-- The fields of `NetworkDevice` read by the grouping on devices/page.tsx
(all other fields are display-only); `buildingid`/`floorid` optional
because the code guards them with `|| 'Unknown ...'`. -/
structure DeviceRec where
  id : String
  macAddress : String
  buildingid : Option String
  floorid : Option String
  deriving DecidableEq

/-- `device.buildingid || 'Unknown Building'`. -/
def deviceBKey (d : DeviceRec) : String := jsOr d.buildingid "Unknown Building"

/-- `device.floorid || 'Unknown Floor'`. -/
def deviceFKey (d : DeviceRec) : String := jsOr d.floorid "Unknown Floor"

/-- `groupedAndSortedData` of devices/page.tsx. -/
def groupedAndSortedData (devices : List DeviceRec) (buildings : List BuildingRec)
    (floors : List FloorRec) : GroupedResult DeviceRec :=
  groupAndSort deviceBKey deviceFKey (fun d => d.macAddress) devices
    (buildingNameMap buildings) (floorNameMap floors)

/-- The fields of `ClientConfig` read by the clients-page grouping; all
optional in the TypeScript interface. -/
structure ClientConfig where
  id : Option String
  macAddress : Option String
  buildingId : Option String
  floorId : Option String
  deriving DecidableEq

/-- A clients-page item (`clientInfo` is display-only and omitted). -/
structure ClientDataItem where
  clientConfig : ClientConfig
  deriving DecidableEq

/-- `config.buildingId || 'Unknown Building'`. -/
def clientBKey (c : ClientDataItem) : String :=
  jsOr c.clientConfig.buildingId "Unknown Building"

/-- `config.floorId || 'Unknown Floor'`. -/
def clientFKey (c : ClientDataItem) : String :=
  jsOr c.clientConfig.floorId "Unknown Floor"

/-- `a.clientConfig.macAddress || ''` as used by the clients-page sort. -/
def clientMac (c : ClientDataItem) : String := jsOr c.clientConfig.macAddress ""

/-- `groupedAndSortedClientData` of the clients page. -/
def groupedAndSortedClientData (clients : List ClientDataItem)
    (buildings : List BuildingRec) (floors : List FloorRec) :
    GroupedResult ClientDataItem :=
  groupAndSort clientBKey clientFKey clientMac clients
    (buildingNameMap buildings) (floorNameMap floors)

/-- All items of one building's floor map, in display order. -/
def floorsItems {α : Type} (inner : List (String × List α)) : List α :=
  (inner.map Prod.snd).flatten

/-- All items of a grouped structure, in display order. -/
def flattenGrouped {α : Type} (g : Grouped α) : List α :=
  (g.map (fun p => floorsItems p.2)).flatten

/-- The floor-level list of items stored under the given building and floor
keys. -/
def bucket {α : Type} (g : Grouped α) (b f : String) : List α :=
  (mapGet ((mapGet g b).getD []) f).getD []

/-! ### Concrete example data for the grouping claims -/

/-- A device in building B2 (example from the claims). -/
def devB2a : DeviceRec :=
  { id := "d1", macAddress := "00:00:00:00:00:01", buildingid := some "B2",
    floorid := some "F1" }

/-- A device in building B1. -/
def devB1 : DeviceRec :=
  { id := "d2", macAddress := "00:00:00:00:00:02", buildingid := some "B1",
    floorid := some "F1" }

/-- A second device in building B2. -/
def devB2b : DeviceRec :=
  { id := "d3", macAddress := "00:00:00:00:00:03", buildingid := some "B2",
    floorid := some "F2" }

/-- Buildings naming B1 "Alpha" and B2 "Beta". -/
def namedBuildings : List BuildingRec :=
  [{ bldgid := some "B1", name := some "Alpha" },
   { bldgid := some "B2", name := some "Beta" }]

/-- A device with no building id, for the unknown-key sentinel. -/
def devNoBuilding : DeviceRec :=
  { id := "d4", macAddress := "00:00:00:00:00:04", buildingid := none,
    floorid := some "F1" }

/-- A device whose MAC starts with a lowercase letter. -/
def devMacLower : DeviceRec :=
  { id := "d5", macAddress := "a0:00:00:00:00:01", buildingid := some "B",
    floorid := some "F" }

/-- A device whose MAC starts with an uppercase letter later in code-unit
order than the lowercase one above. -/
def devMacUpper : DeviceRec :=
  { id := "d6", macAddress := "B0:00:00:00:00:02", buildingid := some "B",
    floorid := some "F" }

/-- The claim's example MAC "b0:...". -/
def devMacB0 : DeviceRec :=
  { id := "d7", macAddress := "b0:00:00:00:00:01", buildingid := some "B",
    floorid := some "F" }

/-- The claim's example MAC "A0:...". -/
def devMacA0 : DeviceRec :=
  { id := "d8", macAddress := "A0:00:00:00:00:02", buildingid := some "B",
    floorid := some "F" }

/-! ## Theorems -/

/-- C1: for every k ≤ the retry ceiling (MAX_RETRIES = 5), if the first k
attempts return HTTP 401 and attempt k+1 returns HTTP 200, then both retry
loops (floors page and clients page) succeed with the parsed JSON body,
invoke the fetch primitive exactly k+1 times, and wait before each of the
k retries a backoff of `Math.random() * 4 + 1` seconds — the affine image
of the uniform sample, hence uniformly distributed in [1, 5) ⊆ [1.0, 5.0]
seconds; each waited delay satisfies 1 ≤ d < 5. -/
theorem c1_retry_success_after_k_401s {α : Type} (k : Nat) (hk : k ≤ MAX_RETRIES)
    (attempt : Nat → Outcome α) (rand : Nat → ℚ) (bodies : Nat → α) (body : α)
    (h401 : ∀ i, i < k → attempt i = Outcome.http 401 (bodies i))
    (h200 : attempt k = Outcome.http 200 body)
    (hrand : ∀ i, 0 ≤ rand i ∧ rand i < 1) :
    fetchRawFloorsRetry attempt rand =
      ⟨RetryResult.success body, k + 1, (List.range k).map (fun i => rand i * 4 + 1)⟩ ∧
    fetchClientRetry attempt rand =
      ⟨RetryResult.success body, k + 1, (List.range k).map (fun i => rand i * 4 + 1)⟩ ∧
    ∀ d ∈ (List.range k).map (fun i => rand i * 4 + 1), 1 ≤ d ∧ d < 5 := by
  have hk5 : k ≤ 5 := hk
  refine ⟨?_, ?_, ?_⟩
  · interval_cases k <;>
      simp [fetchRawFloorsRetry, retryLoop, MAX_RETRIES, h401, h200, List.range_succ]
  · interval_cases k <;>
      simp [fetchClientRetry, retryLoop, MAX_RETRIES, h401, h200, List.range_succ]
  · intro d hd
    simp only [List.mem_map, List.mem_range] at hd
    obtain ⟨i, _, rfl⟩ := hd
    obtain ⟨h0, h1⟩ := hrand i
    constructor <;> linarith

theorem c1_retry_success_after_k_401s_witness :
    (∀ i, i < 2 →
      (fun j => if j < 2 then Outcome.http 401 (0 : Nat) else Outcome.http 200 7) i =
        Outcome.http 401 ((fun _ => (0 : Nat)) i)) ∧
    (fetchRawFloorsRetry (fun j => if j < 2 then Outcome.http 401 (0 : Nat) else Outcome.http 200 7)
        (fun _ => (0 : ℚ)) =
      ⟨RetryResult.success 7, 2 + 1, (List.range 2).map (fun i => (fun _ => (0 : ℚ)) i * 4 + 1)⟩ ∧
    fetchClientRetry (fun j => if j < 2 then Outcome.http 401 (0 : Nat) else Outcome.http 200 7)
        (fun _ => (0 : ℚ)) =
      ⟨RetryResult.success 7, 2 + 1, (List.range 2).map (fun i => (fun _ => (0 : ℚ)) i * 4 + 1)⟩ ∧
    ∀ d ∈ (List.range 2).map (fun i => (fun _ => (0 : ℚ)) i * 4 + 1), 1 ≤ d ∧ d < 5) :=
  ⟨fun i hi => by simp [hi],
    c1_retry_success_after_k_401s 2 (by decide)
      (fun j => if j < 2 then Outcome.http 401 (0 : Nat) else Outcome.http 200 7)
      (fun _ => (0 : ℚ)) (fun _ => (0 : Nat)) 7
      (fun i hi => by simp [hi]) (by simp)
      (fun _ => ⟨le_refl 0, by norm_num⟩)⟩

/-- C2 counterexample: with every attempt returning 401, the floors-page
retry loop invokes the fetch primitive 6 times in total, not at most 5 as
the claim states: the ceiling is 1 initial attempt plus 5 retries. -/
theorem c2_counterexample :
    (fetchRawFloorsRetry (fun _ => Outcome.http 401 (0 : Nat)) (fun _ => (0 : ℚ))).calls = 6 ∧
    ¬ ((fetchRawFloorsRetry (fun _ => Outcome.http 401 (0 : Nat)) (fun _ => (0 : ℚ))).calls ≤ 5) := by
  decide

/-- C2 (amended): if every attempt returns HTTP 401 (or, at the clients-page
call site, HTTP 400), the retry loop performs exactly MAX_RETRIES + 1 = 6
attempts in total (1 initial + 5 retries), then fails with the
authentication-exhausted error carrying the retry ceiling (5, the number of
retries, not the attempt count), and performs no further attempts. -/
theorem c2_retry_exhaustion {α : Type} (attempt attemptC : Nat → Outcome α)
    (rand randC : Nat → ℚ) (bodies bodiesC : Nat → α)
    (h401 : ∀ i, i ≤ MAX_RETRIES → attempt i = Outcome.http 401 (bodies i))
    (h400 : ∀ i, i ≤ MAX_RETRIES → attemptC i = Outcome.http 400 (bodiesC i)) :
    (fetchRawFloorsRetry attempt rand).result =
        RetryResult.failure (RetryErr.authExhausted MAX_RETRIES) ∧
    (fetchRawFloorsRetry attempt rand).calls = MAX_RETRIES + 1 ∧
    (fetchClientRetry attemptC randC).result =
        RetryResult.failure (RetryErr.authExhausted MAX_RETRIES) ∧
    (fetchClientRetry attemptC randC).calls = MAX_RETRIES + 1 := by
  refine ⟨?_, ?_, ?_, ?_⟩ <;>
    simp [fetchRawFloorsRetry, fetchClientRetry, retryLoop, MAX_RETRIES, h401, h400]

theorem c2_retry_exhaustion_witness :
    (∀ i, i ≤ MAX_RETRIES →
      (fun _ : Nat => Outcome.http 401 (0 : Nat)) i = Outcome.http 401 ((fun _ => (0 : Nat)) i)) ∧
    (∀ i, i ≤ MAX_RETRIES →
      (fun _ : Nat => Outcome.http 400 (0 : Nat)) i = Outcome.http 400 ((fun _ => (0 : Nat)) i)) ∧
    ((fetchRawFloorsRetry (fun _ => Outcome.http 401 (0 : Nat)) (fun _ => (0 : ℚ))).result =
        RetryResult.failure (RetryErr.authExhausted MAX_RETRIES) ∧
    (fetchRawFloorsRetry (fun _ => Outcome.http 401 (0 : Nat)) (fun _ => (0 : ℚ))).calls =
        MAX_RETRIES + 1 ∧
    (fetchClientRetry (fun _ => Outcome.http 400 (0 : Nat)) (fun _ => (0 : ℚ))).result =
        RetryResult.failure (RetryErr.authExhausted MAX_RETRIES) ∧
    (fetchClientRetry (fun _ => Outcome.http 400 (0 : Nat)) (fun _ => (0 : ℚ))).calls =
        MAX_RETRIES + 1) :=
  ⟨fun _ _ => rfl, fun _ _ => rfl,
    c2_retry_exhaustion (fun _ => Outcome.http 401 (0 : Nat)) (fun _ => Outcome.http 400 (0 : Nat))
      (fun _ => (0 : ℚ)) (fun _ => (0 : ℚ)) (fun _ => (0 : Nat)) (fun _ => (0 : Nat))
      (fun _ _ => rfl) (fun _ _ => rfl)⟩

/-- C3 counterexample: on the clients page, for credentials with service
labels ["Other", "nile-backup", "Nile"], resolution returns the substring
match "nile-backup", not the exact match "Nile": the single-pass
disjunctive `find` lets an earlier substring match beat a later exact
match, contradicting the claimed exact-before-substring precedence. -/
theorem c3_counterexample :
    findNileApiKeyClients [otherKey, backupKey, nileKey] = some backupKey ∧
    findNileApiKeyClients [otherKey, backupKey, nileKey] ≠ some nileKey := by
  constructor <;> decide

/-- C3 (amended): the floors-page resolution applies the four rules in
order (exact match, else case-insensitive substring match, else first
credential, else none) — in particular it returns the exact match "Nile"
on the claim's example — while the clients-page resolution merges rules 1
and 2 into one pass, so on the same example it returns the earlier
substring match "nile-backup". -/
theorem c3_credential_resolution :
    (∀ (keys : List ApiKey) (k : ApiKey),
      keys.find? (fun k => k.service == "Nile") = some k →
      findNileApiKeyFloors keys = some k) ∧
    (∀ (keys : List ApiKey) (k : ApiKey),
      keys.find? (fun k => k.service == "Nile") = none →
      keys.find? (fun k => jsIncludes (jsToLower k.service) "nile") = some k →
      findNileApiKeyFloors keys = some k) ∧
    (∀ keys : List ApiKey,
      keys.find? (fun k => k.service == "Nile") = none →
      keys.find? (fun k => jsIncludes (jsToLower k.service) "nile") = none →
      findNileApiKeyFloors keys = keys.head?) ∧
    findNileApiKeyFloors [otherKey, backupKey, nileKey] = some nileKey ∧
    findNileApiKeyFloors [otherKey, backupKey] = some backupKey ∧
    findNileApiKeyFloors [fooKey] = some fooKey ∧
    findNileApiKeyFloors [] = none ∧
    findNileApiKeyClients [otherKey, backupKey, nileKey] = some backupKey := by
  refine ⟨?_, ?_, ?_, by decide, by decide, by decide, by decide, by decide⟩
  · intro keys k h
    simp [findNileApiKeyFloors, h]
  · intro keys k h1 h2
    simp [findNileApiKeyFloors, h1, h2]
  · intro keys h1 h2
    cases keys with
    | nil => simp [findNileApiKeyFloors, h1, h2]
    | cons a tl => simp [findNileApiKeyFloors, h1, h2]

theorem c3_credential_resolution_witness :
    ([nileKey].find? (fun k => k.service == "Nile") = some nileKey) ∧
    findNileApiKeyFloors [nileKey] = some nileKey :=
  ⟨by decide, c3_credential_resolution.1 [nileKey] nileKey (by decide)⟩

/-- C4 counterexample: with no active session (accessor returns null), a
backend GET such as fetchTree does not fail fast — it issues the request
anyway, with the Authorization header simply omitted. -/
theorem c4_counterexample :
    apiGetRequest "API_ENDPOINTS.TREE" none (Except.ok []) =
      Except.ok { url := "API_ENDPOINTS.TREE",
                  headers := { contentType := "application/json", authorization := none,
                               xApiKey := none, xTenantId := none } } ∧
    ¬ ∃ e, apiGetRequest "API_ENDPOINTS.TREE" none (Except.ok []) = Except.error e := by
  constructor
  · rfl
  · rintro ⟨e, he⟩
    simp [apiGetRequest] at he

/-- C4 (amended): for the backend API calls of services/api.ts, when the
identity provider's current-session accessor returns null, the call does
not fail with NotAuthenticated: `getApiHeaders` omits the Authorization
header and the HTTP request is still attempted without a token. -/
theorem c4_no_failfast_without_session :
    ∀ (endpoint : String) (remote : Except String (List ApiKey)),
      (getApiHeaders none remote).authorization = none ∧
      apiGetRequest endpoint none remote =
        Except.ok { url := endpoint, headers := getApiHeaders none remote } := by
  intro ep remote
  refine ⟨?_, rfl⟩
  show (getApiHeaders none remote).authorization = none
  simp only [getApiHeaders, getJwtToken, Option.map_none', jsStringOrNull]
  rcases h : getApiKeyAndTenantId none remote with ⟨x, y⟩
  cases x <;> cases y <;> simp [h]

/-- C10: header-credential selection for the app's own backend calls: the
first stored credential with a (truthy) tenant id wins regardless of
service label; else the first credential, with no tenant header; an empty
list or a failed retrieval yields no credential without throwing, and the
request is still sent without an x-api-key header.  The final conjunct
shows the rule differs from the §4.2 heuristic on a concrete input. -/
theorem c10_backend_key_selection :
    (∀ (keys : List ApiKey) (k : ApiKey),
      keys.find? hasTenantId = some k →
      getApiKeyAndTenantId (some "jwt") (Except.ok keys) =
        (some k.key, jsStringOrNull k.tenantId)) ∧
    (∀ (k : ApiKey) (ks : List ApiKey),
      (k :: ks).find? hasTenantId = none →
      getApiKeyAndTenantId (some "jwt") (Except.ok (k :: ks)) = (some k.key, none)) ∧
    getApiKeyAndTenantId (some "jwt") (Except.ok []) = (none, none) ∧
    (∀ e : String, getApiKeyAndTenantId (some "jwt") (Except.error e) = (none, none)) ∧
    (∀ (endpoint e : String) (session : Option CognitoSession),
      (getApiHeaders session (Except.error e)).xApiKey = none ∧
      apiGetRequest endpoint session (Except.error e) =
        Except.ok { url := endpoint, headers := getApiHeaders session (Except.error e) }) ∧
    (getApiKeyAndTenantId (some "jwt")
        (Except.ok [{ otherKey with tenantId := some "T1" }, nileKey]) =
      (some otherKey.key, some "T1") ∧
    findNileApiKeyFloors [{ otherKey with tenantId := some "T1" }, nileKey] = some nileKey ∧
    otherKey.key ≠ nileKey.key) := by
  refine ⟨?_, ?_, by decide, fun e => rfl, ?_, by decide, by decide, by decide⟩
  · intro keys k h
    simp [getApiKeyAndTenantId, getUserApiKeys, fetchApiKeysResult, h]
  · intro k ks h
    simp [getApiKeyAndTenantId, getUserApiKeys, fetchApiKeysResult, h]
  · intro ep e session
    refine ⟨?_, rfl⟩
    cases session with
    | none =>
      simp only [getApiHeaders, getJwtToken, Option.map_none', jsStringOrNull,
        getApiKeyAndTenantId, getUserApiKeys, fetchApiKeysResult]
      simp
    | some c =>
      by_cases hc : c.idTokenJwt = "" <;>
        simp [getApiHeaders, getJwtToken, jsStringOrNull, getApiKeyAndTenantId,
          getUserApiKeys, fetchApiKeysResult, hc]

theorem c10_backend_key_selection_witness :
    ([{ otherKey with tenantId := some "T1" }] : List ApiKey).find? hasTenantId =
      some { otherKey with tenantId := some "T1" } ∧
    getApiKeyAndTenantId (some "jwt") (Except.ok [{ otherKey with tenantId := some "T1" }]) =
      (some { otherKey with tenantId := some "T1" }.key,
        jsStringOrNull { otherKey with tenantId := some "T1" }.tenantId) :=
  ⟨by decide,
    c10_backend_key_selection.1 [{ otherKey with tenantId := some "T1" }]
      { otherKey with tenantId := some "T1" } (by decide)⟩

/-- C8 counterexample: with an active session, authorizeDevice with the
unmapped status "Pending" fails with the invalid-status error, but only
after the credential-store fetch inside getApiHeaders has already gone out:
the network-call trace is not empty, contradicting "before any network
call is made". -/
theorem c8_counterexample :
    (authorizeDevice (some ⟨"jwt"⟩) (Except.ok []) pendingParams).1 =
      [NetCall.apiKeysFetch] ∧
    (authorizeDevice (some ⟨"jwt"⟩) (Except.ok []) pendingParams).2 =
      Except.error "Invalid status provided: Pending" ∧
    (authorizeDevice (some ⟨"jwt"⟩) (Except.ok []) pendingParams).1 ≠ [] := by
  refine ⟨by decide, rfl, by decide⟩

/-- C8 (amended): authorizeDevice maps "Approved" to a payload with state
"AUTH_OK" and "Denied" to "AUTH_DENIED"; any other status fails with the
invalid-status error before the authorization request is issued — no
authPatch call appears in the trace, so no unmapped value is ever passed
through — though the header-building credential fetch has already run. -/
theorem c8_status_mapping (session : Option CognitoSession)
    (remote : Except String (List ApiKey)) (params : DeviceAuthorizationParams) :
    (params.status = "Approved" →
      authorizeDevice session remote params =
        (getApiHeadersCalls session ++
          [NetCall.authPatch (getApiHeaders session remote)
            { clientId := params.deviceId, macAddress := params.macAddress,
              segmentId := params.segmentId, state := "AUTH_OK",
              description := params.description }],
         Except.ok
            { clientId := params.deviceId, macAddress := params.macAddress,
              segmentId := params.segmentId, state := "AUTH_OK",
              description := params.description })) ∧
    (params.status = "Denied" →
      authorizeDevice session remote params =
        (getApiHeadersCalls session ++
          [NetCall.authPatch (getApiHeaders session remote)
            { clientId := params.deviceId, macAddress := params.macAddress,
              segmentId := params.segmentId, state := "AUTH_DENIED",
              description := params.description }],
         Except.ok
            { clientId := params.deviceId, macAddress := params.macAddress,
              segmentId := params.segmentId, state := "AUTH_DENIED",
              description := params.description })) ∧
    (params.status ≠ "Approved" → params.status ≠ "Denied" →
      (authorizeDevice session remote params).2 =
        Except.error ("Invalid status provided: " ++ params.status) ∧
      ∀ c ∈ (authorizeDevice session remote params).1, c = NetCall.apiKeysFetch) := by
  refine ⟨?_, ?_, ?_⟩
  · intro h
    simp [authorizeDevice, mapStatusToLambdaState, h]
  · intro h
    have : params.status ≠ "Approved" := by simp [h]
    simp [authorizeDevice, mapStatusToLambdaState, h, this]
  · intro h1 h2
    refine ⟨by simp [authorizeDevice, mapStatusToLambdaState, h1, h2], ?_⟩
    intro c hc
    simp only [authorizeDevice, mapStatusToLambdaState, if_neg h1, if_neg h2] at hc
    cases session with
    | none => simp [getApiHeadersCalls, getJwtToken, jsStringOrNull] at hc
    | some s =>
      by_cases hs : s.idTokenJwt = "" <;>
        simp [getApiHeadersCalls, getJwtToken, jsStringOrNull, hs] at hc <;>
        simp [hc]

theorem c8_status_mapping_witness :
    (pendingParams.status ≠ "Approved" ∧ pendingParams.status ≠ "Denied") ∧
    ((authorizeDevice (some ⟨"jwt"⟩) (Except.ok []) pendingParams).2 =
      Except.error ("Invalid status provided: " ++ pendingParams.status) ∧
    ∀ c ∈ (authorizeDevice (some ⟨"jwt"⟩) (Except.ok []) pendingParams).1,
      c = NetCall.apiKeysFetch) :=
  ⟨⟨by decide, by decide⟩,
    (c8_status_mapping (some ⟨"jwt"⟩) (Except.ok []) pendingParams).2.2
      (by decide) (by decide)⟩

/-- C9: the useFetch hook's cancellation wiring, evaluated at the failing
input.  An `AbortError`-named rejection would indeed end with
loading = false and error = null, and a network failure sets error
non-null; but aborting before resolution does not cancel the fetch: the
`AbortController`'s signal is never passed to `fetchFn`, so the run is
independent of `aborted` and a fetch that resolves after the abort still
lands its data. -/
theorem c9_cancellation_not_wired :
    useFetchRun Nat (useFetchInitial Nat) true (FetchSettle.success 42) =
      { data := some 42, loading := false, error := none } ∧
    useFetchRun Nat (useFetchInitial Nat) true
        (FetchSettle.errThrown "AbortError" "The user aborted a request.") =
      { data := none, loading := false, error := none } ∧
    useFetchRun Nat (useFetchInitial Nat) false
        (FetchSettle.errThrown "TypeError" "Failed to fetch") =
      { data := none, loading := false, error := some "Failed to fetch" } ∧
    ∀ (prev : FetchState Nat) (aborted : Bool) (o : FetchSettle Nat),
      useFetchRun Nat prev aborted o = useFetchRun Nat prev false o := by
  refine ⟨by decide, by decide, by decide, fun prev aborted o => rfl⟩

theorem lexCompareNat_eq_iff : ∀ as bs : List Nat, lexCompareNat as bs = Ordering.eq ↔ as = bs := by
  intro as
  induction as with
  | nil => intro bs; cases bs <;> simp [lexCompareNat]
  | cons a as ih =>
    intro bs
    cases bs with
    | nil => simp [lexCompareNat]
    | cons b bs =>
      simp only [lexCompareNat, List.cons.injEq]
      rcases Nat.lt_trichotomy a b with h | h | h
      · rw [if_pos h]
        constructor
        · intro hc; exact absurd hc (by decide)
        · rintro ⟨rfl, -⟩; omega
      · subst h
        rw [if_neg (by omega), if_neg (by omega)]
        simp [ih bs]
      · rw [if_neg (by omega), if_pos h]
        constructor
        · intro hc; exact absurd hc (by decide)
        · rintro ⟨rfl, -⟩; omega

theorem lexCompareNat_swap : ∀ as bs : List Nat,
    lexCompareNat bs as = (lexCompareNat as bs).swap := by
  intro as
  induction as with
  | nil => intro bs; cases bs <;> simp [lexCompareNat, Ordering.swap]
  | cons a as ih =>
    intro bs
    cases bs with
    | nil => simp [lexCompareNat, Ordering.swap]
    | cons b bs =>
      simp only [lexCompareNat]
      rcases Nat.lt_trichotomy a b with h | h | h
      · rw [if_neg (by omega), if_pos h, if_pos h]
        rfl
      · subst h
        rw [if_neg (by omega), if_neg (by omega), if_neg (by omega), if_neg (by omega)]
        exact ih bs
      · rw [if_pos h, if_neg (by omega), if_pos h]
        rfl

theorem lexCompareNat_lt_trans :
    ∀ as bs cs : List Nat, lexCompareNat as bs = Ordering.lt →
      lexCompareNat bs cs = Ordering.lt → lexCompareNat as cs = Ordering.lt := by
  intro as
  induction as with
  | nil =>
    intro bs cs h1 h2
    cases bs with
    | nil => exact h2
    | cons b bs =>
      cases cs with
      | nil => exact absurd h2 (by simp [lexCompareNat])
      | cons c cs => simp [lexCompareNat]
  | cons a as ih =>
    intro bs cs h1 h2
    cases bs with
    | nil => exact absurd h1 (by simp [lexCompareNat])
    | cons b bs =>
      cases cs with
      | nil => exact absurd h2 (by simp [lexCompareNat])
      | cons c cs =>
        simp only [lexCompareNat] at h1 h2 ⊢
        rcases Nat.lt_trichotomy a b with hab | hab | hab
        · rcases Nat.lt_trichotomy b c with hbc | hbc | hbc
          · rw [if_pos (by omega)]
          · subst hbc; rw [if_pos hab]
          · rw [if_neg (by omega), if_pos hbc] at h2
            exact absurd h2 (by decide)
        · subst hab
          rw [if_neg (by omega), if_neg (by omega)] at h1
          rcases Nat.lt_trichotomy a c with hac | hac | hac
          · rw [if_pos hac]
          · subst hac
            rw [if_neg (by omega), if_neg (by omega)] at h2 ⊢
            exact ih bs cs h1 h2
          · rw [if_neg (by omega), if_pos hac] at h2
            exact absurd h2 (by decide)
        · rw [if_neg (by omega), if_pos hab] at h1
          exact absurd h1 (by decide)

theorem lexCompareNat_ne_gt_trans {as bs cs : List Nat}
    (h1 : lexCompareNat as bs ≠ Ordering.gt) (h2 : lexCompareNat bs cs ≠ Ordering.gt) :
    lexCompareNat as cs ≠ Ordering.gt := by
  rcases hab : lexCompareNat as bs with _ | _ | _
  · rcases hbc : lexCompareNat bs cs with _ | _ | _
    · rw [lexCompareNat_lt_trans as bs cs hab hbc]; decide
    · rw [← (lexCompareNat_eq_iff bs cs).mp hbc, hab]; decide
    · exact absurd hbc h2
  · rw [(lexCompareNat_eq_iff as bs).mp hab]
    exact h2
  · exact absurd hab h1

theorem ordThen_ne_gt {o1 o2 : Ordering} :
    ordThen o1 o2 ≠ Ordering.gt ↔
      (o1 = Ordering.lt ∨ (o1 = Ordering.eq ∧ o2 ≠ Ordering.gt)) := by
  cases o1 <;> cases o2 <;> simp [ordThen]

theorem ordThen_swap (o1 o2 : Ordering) :
    ordThen o1.swap o2.swap = (ordThen o1 o2).swap := by
  cases o1 <;> cases o2 <;> rfl

theorem ordToInt_nonpos {o : Ordering} : ordToInt o ≤ 0 ↔ o ≠ Ordering.gt := by
  cases o <;> simp [ordToInt]

theorem localeCompareO_swap (a b : String) :
    localeCompareO b a = (localeCompareO a b).swap := by
  unfold localeCompareO
  rw [lexCompareNat_swap (a.toList.map primaryWeight) (b.toList.map primaryWeight),
    lexCompareNat_swap (a.toList.map caseWeight) (b.toList.map caseWeight)]
  exact ordThen_swap _ _

theorem localeCompare_nonpos (a b : String) :
    localeCompare a b ≤ 0 ↔ localeCompareO a b ≠ Ordering.gt :=
  ordToInt_nonpos

theorem localeCompareO_ne_gt_trans {a b c : String}
    (h1 : localeCompareO a b ≠ Ordering.gt) (h2 : localeCompareO b c ≠ Ordering.gt) :
    localeCompareO a c ≠ Ordering.gt := by
  unfold localeCompareO at h1 h2 ⊢
  rw [ordThen_ne_gt] at h1 h2 ⊢
  rcases h1 with h1 | ⟨h1, h1c⟩
  · rcases h2 with h2 | ⟨h2, -⟩
    · exact Or.inl (lexCompareNat_lt_trans _ _ _ h1 h2)
    · rw [(lexCompareNat_eq_iff _ _).mp h2] at h1
      exact Or.inl h1
  · rcases h2 with h2 | ⟨h2, h2c⟩
    · rw [← (lexCompareNat_eq_iff _ _).mp h1] at h2
      exact Or.inl h2
    · refine Or.inr ⟨?_, ?_⟩
      · rw [(lexCompareNat_eq_iff _ _).mp h1]
        exact h2
      · exact lexCompareNat_ne_gt_trans h1c h2c

theorem localeCompare_le_trans (a b c : String)
    (h1 : localeCompare a b ≤ 0) (h2 : localeCompare b c ≤ 0) : localeCompare a c ≤ 0 :=
  (localeCompare_nonpos a c).mpr
    (localeCompareO_ne_gt_trans ((localeCompare_nonpos a b).mp h1)
      ((localeCompare_nonpos b c).mp h2))

theorem localeCompare_le_total (a b : String) :
    localeCompare a b ≤ 0 ∨ localeCompare b a ≤ 0 := by
  rcases h : localeCompareO a b with _ | _ | _
  · exact Or.inl ((localeCompare_nonpos a b).mpr (by rw [h]; decide))
  · exact Or.inl ((localeCompare_nonpos a b).mpr (by rw [h]; decide))
  · refine Or.inr ((localeCompare_nonpos b a).mpr ?_)
    rw [localeCompareO_swap, h]
    decide

theorem jsSortBy_perm {α : Type} (cmp : α → α → Int) (l : List α) :
    List.Perm (jsSortBy cmp l) l :=
  List.perm_insertionSort _ l

theorem jsSortBy_pairwise_locale {α : Type} (f : α → String) (l : List α) :
    (jsSortBy (fun a b => localeCompare (f a) (f b)) l).Pairwise
      (fun a b => localeCompare (f a) (f b) ≤ 0) := by
  haveI ht : IsTotal α (fun a b => localeCompare (f a) (f b) ≤ 0) :=
    ⟨fun a b => localeCompare_le_total (f a) (f b)⟩
  haveI htr : IsTrans α (fun a b => localeCompare (f a) (f b) ≤ 0) :=
    ⟨fun a b c => localeCompare_le_trans (f a) (f b) (f c)⟩
  exact List.sorted_insertionSort _ l

theorem mapGet_cons {β : Type} (k0 k : String) (v0 : β) (rest : List (String × β)) :
    mapGet ((k0, v0) :: rest) k = if k0 = k then some v0 else mapGet rest k := rfl

theorem mapSet_cons {β : Type} (k0 k : String) (v0 v : β) (rest : List (String × β)) :
    mapSet ((k0, v0) :: rest) k v =
      if k0 = k then (k, v) :: rest else (k0, v0) :: mapSet rest k v := rfl

theorem mapGet_mapSet_self {β : Type} (m : List (String × β)) (k : String) (v : β) :
    mapGet (mapSet m k v) k = some v := by
  induction m with
  | nil => simp [mapGet, mapSet]
  | cons p rest ih =>
    obtain ⟨k', v'⟩ := p
    by_cases h : k' = k
    · rw [mapSet_cons, if_pos h, mapGet_cons, if_pos rfl]
    · rw [mapSet_cons, if_neg h, mapGet_cons, if_neg h]
      exact ih

theorem mapGet_mapSet_ne {β : Type} (m : List (String × β)) {k k' : String} (v : β)
    (h : k' ≠ k) : mapGet (mapSet m k v) k' = mapGet m k' := by
  have h' : ¬ k = k' := fun he => h he.symm
  induction m with
  | nil => simp [mapGet, mapSet, h']
  | cons p rest ih =>
    obtain ⟨k0, v0⟩ := p
    by_cases h0 : k0 = k
    · rw [mapSet_cons, if_pos h0, mapGet_cons, if_neg h', mapGet_cons, if_neg (h0 ▸ h')]
    · rw [mapSet_cons, if_neg h0, mapGet_cons, mapGet_cons, ih]

theorem mem_of_mapGet_eq_some {β : Type} {m : List (String × β)} {k : String} {v : β}
    (h : mapGet m k = some v) : (k, v) ∈ m := by
  induction m with
  | nil => simp [mapGet] at h
  | cons p rest ih =>
    obtain ⟨k0, v0⟩ := p
    by_cases h0 : k0 = k
    · rw [mapGet_cons, if_pos h0, Option.some.injEq] at h
      subst h0
      subst h
      exact List.mem_cons_self _ _
    · rw [mapGet_cons, if_neg h0] at h
      exact List.mem_cons_of_mem _ (ih h)

theorem mem_keys_of_mapGet_eq_some {β : Type} {m : List (String × β)} {k : String} {v : β}
    (h : mapGet m k = some v) : k ∈ m.map Prod.fst :=
  List.mem_map.mpr ⟨(k, v), mem_of_mapGet_eq_some h, rfl⟩

theorem mapGet_map {β γ : Type} (g : β → γ) (m : List (String × β)) (k : String) :
    mapGet (m.map (fun p => (p.1, g p.2))) k = (mapGet m k).map g := by
  induction m with
  | nil => simp [mapGet]
  | cons p rest ih =>
    obtain ⟨k0, v0⟩ := p
    by_cases h : k0 = k
    · simp only [List.map_cons, mapGet_cons, if_pos h, Option.map_some']
    · simp only [List.map_cons, mapGet_cons, if_neg h, ih]

theorem mem_keys_mapSet {β : Type} {m : List (String × β)} {k : String} {v : β} {x : String}
    (hx : x ∈ (mapSet m k v).map Prod.fst) : x ∈ m.map Prod.fst ∨ x = k := by
  induction m with
  | nil =>
    right
    simpa [mapSet] using hx
  | cons p rest ih =>
    obtain ⟨k0, v0⟩ := p
    by_cases h0 : k0 = k
    · rw [mapSet_cons, if_pos h0] at hx
      simp only [List.map_cons, List.mem_cons] at hx
      rcases hx with hx | hx
      · exact Or.inr hx
      · exact Or.inl (List.mem_cons_of_mem _ hx)
    · rw [mapSet_cons, if_neg h0] at hx
      simp only [List.map_cons, List.mem_cons] at hx
      rcases hx with hx | hx
      · exact Or.inl (by simp [hx])
      · rcases ih hx with h' | h'
        · exact Or.inl (List.mem_cons_of_mem _ h')
        · exact Or.inr h'

theorem nodup_keys_mapSet {β : Type} (m : List (String × β)) (k : String) (v : β)
    (h : (m.map Prod.fst).Nodup) : ((mapSet m k v).map Prod.fst).Nodup := by
  induction m with
  | nil => simp [mapSet]
  | cons p rest ih =>
    obtain ⟨k0, v0⟩ := p
    simp only [List.map_cons, List.nodup_cons] at h
    obtain ⟨hk0, hrest⟩ := h
    by_cases h0 : k0 = k
    · rw [mapSet_cons, if_pos h0]
      simp only [List.map_cons, List.nodup_cons]
      exact ⟨h0 ▸ hk0, hrest⟩
    · rw [mapSet_cons, if_neg h0]
      simp only [List.map_cons, List.nodup_cons]
      refine ⟨?_, ih hrest⟩
      intro hmem
      rcases mem_keys_mapSet hmem with h' | h'
      · exact hk0 h'
      · exact h0 h'

theorem map_keys_lookup {β γ : Type} (t : String → β → γ) (d : β)
    (m : List (String × β)) (hm : (m.map Prod.fst).Nodup) :
    (m.map Prod.fst).map (fun k => t k ((mapGet m k).getD d)) =
      m.map (fun p => t p.1 p.2) := by
  induction m with
  | nil => rfl
  | cons p rest ih =>
    obtain ⟨k0, v0⟩ := p
    simp only [List.map_cons, List.nodup_cons] at hm
    obtain ⟨hk0, hrest⟩ := hm
    simp only [List.map_cons]
    congr 1
    · rw [mapGet_cons, if_pos rfl]
      rfl
    · rw [← ih hrest]
      apply List.map_congr_left
      intro x hx
      have hne : ¬ k0 = x := fun he => hk0 (he ▸ hx)
      rw [mapGet_cons, if_neg hne]

theorem mapGet_keys_map {γ : Type} (f : String → γ) :
    ∀ (ks : List String), ks.Nodup → ∀ {k : String}, k ∈ ks →
      mapGet (ks.map (fun x => (x, f x))) k = some (f k) := by
  intro ks
  induction ks with
  | nil => intro _ k hk; simp at hk
  | cons a rest ih =>
    intro hnd k hk
    simp only [List.nodup_cons] at hnd
    obtain ⟨ha, hrest⟩ := hnd
    rcases List.mem_cons.mp hk with rfl | hk'
    · simp [mapGet]
    · have hne : ¬ a = k := fun he => ha (he ▸ hk')
      simp only [List.map_cons, mapGet_cons, if_neg hne]
      exact ih hrest hk'

theorem floorsItems_cons {α : Type} (k : String) (v : List α)
    (rest : List (String × List α)) :
    floorsItems ((k, v) :: rest) = v ++ floorsItems rest := by
  simp [floorsItems]

theorem flattenGrouped_cons {α : Type} (k : String) (inner : List (String × List α))
    (rest : Grouped α) :
    flattenGrouped ((k, inner) :: rest) = floorsItems inner ++ flattenGrouped rest := by
  simp [flattenGrouped]

theorem perm_append_singleton_middle {α : Type} (u R : List α) (x : α) :
    List.Perm ((u ++ [x]) ++ R) ((u ++ R) ++ [x]) := by
  rw [List.append_assoc u [x] R, List.append_assoc u R [x]]
  exact List.Perm.append_left u List.perm_append_comm

theorem floorsItems_mapSet_push {α : Type} (inner : List (String × List α))
    (f : String) (x : α) :
    List.Perm (floorsItems (mapSet inner f (((mapGet inner f).getD []) ++ [x])))
      (floorsItems inner ++ [x]) := by
  induction inner with
  | nil =>
    simp [floorsItems, mapGet, mapSet]
  | cons p rest ih =>
    obtain ⟨k0, v0⟩ := p
    by_cases h : k0 = f
    · rw [mapGet_cons, if_pos h, mapSet_cons, if_pos h]
      rw [floorsItems_cons, floorsItems_cons]
      exact perm_append_singleton_middle v0 (floorsItems rest) x
    · rw [mapGet_cons, if_neg h, mapSet_cons, if_neg h]
      rw [floorsItems_cons, floorsItems_cons]
      refine (List.Perm.append_left v0 ih).trans ?_
      exact List.Perm.of_eq (List.append_assoc v0 (floorsItems rest) [x]).symm

theorem groupStep_eq {α : Type} (bKey fKey : α → String) (acc : Grouped α) (x : α) :
    groupStep bKey fKey acc x =
      mapSet acc (bKey x)
        (mapSet ((mapGet acc (bKey x)).getD []) (fKey x)
          (((mapGet ((mapGet acc (bKey x)).getD []) (fKey x)).getD []) ++ [x])) := rfl

theorem flattenGrouped_groupStep {α : Type} (bKey fKey : α → String)
    (acc : Grouped α) (x : α) :
    List.Perm (flattenGrouped (groupStep bKey fKey acc x))
      (flattenGrouped acc ++ [x]) := by
  induction acc with
  | nil =>
    rw [groupStep_eq]
    simp [flattenGrouped, floorsItems, mapGet, mapSet]
  | cons p rest ih =>
    rw [groupStep_eq] at ih ⊢
    obtain ⟨k0, inner0⟩ := p
    by_cases h : k0 = bKey x
    · rw [mapGet_cons, if_pos h]
      simp only [Option.getD_some]
      rw [mapSet_cons, if_pos h]
      rw [flattenGrouped_cons, flattenGrouped_cons]
      refine (List.Perm.append_right (flattenGrouped rest) ?_).trans
        (perm_append_singleton_middle (floorsItems inner0) (flattenGrouped rest) x)
      exact floorsItems_mapSet_push inner0 (fKey x) x
    · rw [mapGet_cons, if_neg h, mapSet_cons, if_neg h]
      rw [flattenGrouped_cons, flattenGrouped_cons]
      refine (List.Perm.append_left (floorsItems inner0) ih).trans ?_
      exact List.Perm.of_eq (List.append_assoc (floorsItems inner0) (flattenGrouped rest) [x]).symm

theorem flattenGrouped_foldl {α : Type} (bKey fKey : α → String) :
    ∀ (items : List α) (acc : Grouped α),
      List.Perm (flattenGrouped (items.foldl (groupStep bKey fKey) acc))
        (flattenGrouped acc ++ items) := by
  intro items
  induction items with
  | nil => intro acc; simp
  | cons x xs ih =>
    intro acc
    simp only [List.foldl_cons]
    refine (ih (groupStep bKey fKey acc x)).trans ?_
    refine (List.Perm.append_right xs (flattenGrouped_groupStep bKey fKey acc x)).trans ?_
    refine List.Perm.of_eq ?_
    rw [List.append_assoc]
    rfl

theorem flattenGrouped_groupItems {α : Type} (bKey fKey : α → String) (items : List α) :
    List.Perm (flattenGrouped (groupItems bKey fKey items)) items := by
  have h := flattenGrouped_foldl bKey fKey items []
  simpa [groupItems, flattenGrouped] using h

theorem mem_mapSet {β : Type} {m : List (String × β)} {k : String} {v : β}
    {p : String × β} (hp : p ∈ mapSet m k v) : p ∈ m ∨ p = (k, v) := by
  induction m with
  | nil =>
    right
    simpa [mapSet] using hp
  | cons q rest ih =>
    obtain ⟨k0, v0⟩ := q
    by_cases h0 : k0 = k
    · rw [mapSet_cons, if_pos h0] at hp
      rcases List.mem_cons.mp hp with hp | hp
      · exact Or.inr hp
      · exact Or.inl (List.mem_cons_of_mem _ hp)
    · rw [mapSet_cons, if_neg h0] at hp
      rcases List.mem_cons.mp hp with hp | hp
      · exact Or.inl (by simp [hp])
      · rcases ih hp with h' | h'
        · exact Or.inl (List.mem_cons_of_mem _ h')
        · exact Or.inr h'

theorem groupItems_nodup {α : Type} (bKey fKey : α → String) (items : List α) :
    ((groupItems bKey fKey items).map Prod.fst).Nodup ∧
      ∀ p ∈ groupItems bKey fKey items, (p.2.map Prod.fst).Nodup := by
  suffices h : ∀ acc : Grouped α, (acc.map Prod.fst).Nodup →
      (∀ p ∈ acc, (p.2.map Prod.fst).Nodup) →
      ((items.foldl (groupStep bKey fKey) acc).map Prod.fst).Nodup ∧
        ∀ p ∈ items.foldl (groupStep bKey fKey) acc, (p.2.map Prod.fst).Nodup by
    exact h [] (by simp) (by simp)
  induction items with
  | nil => intro acc h1 h2; exact ⟨h1, h2⟩
  | cons x xs ih =>
    intro acc h1 h2
    simp only [List.foldl_cons]
    refine ih (groupStep bKey fKey acc x) ?_ ?_
    · exact nodup_keys_mapSet acc _ _ h1
    · intro p hp
      rcases mem_mapSet hp with hp' | hp'
      · exact h2 p hp'
      · subst hp'
        refine nodup_keys_mapSet _ _ _ ?_
        rcases hg : mapGet acc (bKey x) with _ | w
        · simp
        · simp only [Option.getD_some]
          exact h2 (bKey x, w) (mem_of_mapGet_eq_some hg)

theorem bucket_groupStep_self {α : Type} (bKey fKey : α → String)
    (acc : Grouped α) (x : α) :
    x ∈ bucket (groupStep bKey fKey acc x) (bKey x) (fKey x) := by
  rw [groupStep_eq]
  unfold bucket
  rw [mapGet_mapSet_self]
  simp only [Option.getD_some]
  rw [mapGet_mapSet_self]
  simp

theorem bucket_groupStep_mono {α : Type} (bKey fKey : α → String)
    (acc : Grouped α) (y x : α) (b f : String)
    (hy : y ∈ bucket acc b f) : y ∈ bucket (groupStep bKey fKey acc x) b f := by
  rw [groupStep_eq]
  unfold bucket at hy ⊢
  by_cases hb : b = bKey x
  · subst hb
    rw [mapGet_mapSet_self]
    simp only [Option.getD_some]
    by_cases hf : f = fKey x
    · subst hf
      rw [mapGet_mapSet_self]
      simp only [Option.getD_some]
      exact List.mem_append_left _ hy
    · rw [mapGet_mapSet_ne _ _ hf]
      exact hy
  · rw [mapGet_mapSet_ne _ _ hb]
    exact hy

theorem bucket_foldl_mono {α : Type} (bKey fKey : α → String) :
    ∀ (items : List α) (acc : Grouped α) (y : α) (b f : String),
      y ∈ bucket acc b f → y ∈ bucket (items.foldl (groupStep bKey fKey) acc) b f := by
  intro items
  induction items with
  | nil => intro acc y b f hy; exact hy
  | cons x xs ih =>
    intro acc y b f hy
    simp only [List.foldl_cons]
    exact ih _ y b f (bucket_groupStep_mono bKey fKey acc y x b f hy)

theorem mem_bucket_groupItems {α : Type} (bKey fKey : α → String) (items : List α)
    {x : α} (hx : x ∈ items) :
    x ∈ bucket (groupItems bKey fKey items) (bKey x) (fKey x) := by
  suffices h : ∀ acc : Grouped α, x ∈ items →
      x ∈ bucket (items.foldl (groupStep bKey fKey) acc) (bKey x) (fKey x) by
    exact h [] hx
  clear hx
  induction items with
  | nil => intro acc hx; simp at hx
  | cons y ys ih =>
    intro acc hx
    simp only [List.foldl_cons]
    rcases List.mem_cons.mp hx with rfl | hx'
    · exact bucket_foldl_mono bKey fKey ys _ x (bKey x) (fKey x)
        (bucket_groupStep_self bKey fKey acc x)
    · exact ih _ hx'

theorem flatten_map_perm {α β : Type} (l : List β) (f g : β → List α)
    (h : ∀ x ∈ l, List.Perm (f x) (g x)) :
    List.Perm ((l.map f).flatten) ((l.map g).flatten) := by
  induction l with
  | nil => simp
  | cons a as ih =>
    simp only [List.map_cons, List.flatten_cons]
    exact (h a (List.mem_cons_self _ _)).append
      (ih (fun x hx => h x (List.mem_cons_of_mem _ hx)))

theorem sortFloorLists_keys {α : Type} (mac : α → String) (g : Grouped α) :
    (sortFloorLists mac g).map Prod.fst = g.map Prod.fst := by
  simp [sortFloorLists]

theorem mapGet_sortFloorLists {α : Type} (mac : α → String) (g : Grouped α) (b : String) :
    mapGet (sortFloorLists mac g) b =
      (mapGet g b).map (fun inner => inner.map
        (fun q => (q.1, jsSortBy (fun a c => localeCompare (mac a) (mac c)) q.2))) :=
  mapGet_map _ g b

theorem floorsItems_sortInner_perm {α : Type} (mac : α → String)
    (inner : List (String × List α)) :
    List.Perm
      (floorsItems (inner.map
        (fun q => (q.1, jsSortBy (fun a c => localeCompare (mac a) (mac c)) q.2))))
      (floorsItems inner) := by
  unfold floorsItems
  rw [List.map_map]
  exact flatten_map_perm inner _ _ (fun q _ => jsSortBy_perm _ q.2)

theorem flattenGrouped_sortFloorLists_perm {α : Type} (mac : α → String) (g : Grouped α) :
    List.Perm (flattenGrouped (sortFloorLists mac g)) (flattenGrouped g) := by
  unfold flattenGrouped sortFloorLists
  rw [List.map_map]
  exact flatten_map_perm g _ _ (fun p _ => floorsItems_sortInner_perm mac p.2)

theorem sortFloorLists_inner_nodup {α : Type} (mac : α → String) (g : Grouped α)
    (h : ∀ p ∈ g, (p.2.map Prod.fst).Nodup) :
    ∀ p ∈ sortFloorLists mac g, (p.2.map Prod.fst).Nodup := by
  intro p hp
  unfold sortFloorLists at hp
  obtain ⟨q, hq, rfl⟩ := List.mem_map.mp hp
  have hh := h q hq
  simpa [List.map_map] using hh

theorem exists_mapGet_of_mem_keys {β : Type} {m : List (String × β)} {k : String}
    (h : k ∈ m.map Prod.fst) : ∃ v, mapGet m k = some v := by
  induction m with
  | nil => simp at h
  | cons p rest ih =>
    obtain ⟨k0, v0⟩ := p
    by_cases h0 : k0 = k
    · exact ⟨v0, by rw [mapGet_cons, if_pos h0]⟩
    · rw [List.map_cons, List.mem_cons] at h
      rcases h with h | h
      · exact absurd h.symm h0
      · obtain ⟨v, hv⟩ := ih h
        exact ⟨v, by rw [mapGet_cons, if_neg h0]; exact hv⟩

theorem floorsItems_rebuild_entry_perm {α : Type} (fnm : List (String × String))
    (bm : List (String × List α)) (hnd : (bm.map Prod.fst).Nodup) :
    List.Perm
      (floorsItems ((sortKeysByName fnm (bm.map Prod.fst)).map
        (fun fId => (fId, (mapGet bm fId).getD []))))
      (floorsItems bm) := by
  unfold floorsItems
  rw [List.map_map]
  have hperm : List.Perm (sortKeysByName fnm (bm.map Prod.fst)) (bm.map Prod.fst) :=
    jsSortBy_perm _ _
  refine (List.Perm.flatten (hperm.map _)).trans ?_
  refine List.Perm.of_eq ?_
  have h := map_keys_lookup (fun _ v => v) ([] : List α) bm hnd
  simpa using congrArg List.flatten h

theorem flattenGrouped_rebuildInOrder_perm {α : Type} (fnm : List (String × String))
    (g : Grouped α) (ks : List String)
    (hks : List.Perm ks (g.map Prod.fst))
    (hnd : (g.map Prod.fst).Nodup)
    (hinner : ∀ p ∈ g, (p.2.map Prod.fst).Nodup) :
    List.Perm (flattenGrouped (rebuildInOrder fnm g ks)) (flattenGrouped g) := by
  unfold flattenGrouped rebuildInOrder
  rw [List.map_map]
  refine (flatten_map_perm ks _ (fun b => floorsItems ((mapGet g b).getD [])) ?_).trans ?_
  · intro b hb
    have hbg : b ∈ g.map Prod.fst := (hks.mem_iff).mp hb
    obtain ⟨bm, hbm⟩ := exists_mapGet_of_mem_keys hbg
    have hbmnd : (bm.map Prod.fst).Nodup :=
      hinner (b, bm) (mem_of_mapGet_eq_some hbm)
    simp only [Function.comp, hbm, Option.getD_some]
    exact floorsItems_rebuild_entry_perm fnm bm hbmnd
  · have h1 : List.Perm (ks.map (fun b => floorsItems ((mapGet g b).getD [])))
        ((g.map Prod.fst).map (fun b => floorsItems ((mapGet g b).getD []))) :=
      hks.map _
    have h2 : (g.map Prod.fst).map (fun b => floorsItems ((mapGet g b).getD [])) =
        g.map (fun p => floorsItems p.2) := by
      have := map_keys_lookup (fun _ v => floorsItems v) ([] : List (String × List α)) g hnd
      simpa using this
    exact List.Perm.flatten (h1.trans (List.Perm.of_eq h2))

theorem groupAndSort_grouped_eq {α : Type} (bKey fKey mac : α → String) (items : List α)
    (bnm fnm : List (String × String)) :
    (groupAndSort bKey fKey mac items bnm fnm).groupedData =
      rebuildInOrder fnm (sortFloorLists mac (groupItems bKey fKey items))
        (sortKeysByName bnm
          ((sortFloorLists mac (groupItems bKey fKey items)).map Prod.fst)) := rfl

theorem groupAndSort_keys_eq {α : Type} (bKey fKey mac : α → String) (items : List α)
    (bnm fnm : List (String × String)) :
    (groupAndSort bKey fKey mac items bnm fnm).sortedBuildingKeys =
      sortKeysByName bnm
        ((sortFloorLists mac (groupItems bKey fKey items)).map Prod.fst) := rfl

theorem groupAndSort_flatten_perm {α : Type} (bKey fKey mac : α → String)
    (items : List α) (bnm fnm : List (String × String)) :
    List.Perm (flattenGrouped (groupAndSort bKey fKey mac items bnm fnm).groupedData)
      items := by
  rw [groupAndSort_grouped_eq]
  have hnodup := groupItems_nodup bKey fKey items
  have hnd : ((sortFloorLists mac (groupItems bKey fKey items)).map Prod.fst).Nodup := by
    rw [sortFloorLists_keys]; exact hnodup.1
  have hinner := sortFloorLists_inner_nodup mac (groupItems bKey fKey items) hnodup.2
  have hks : List.Perm
      (sortKeysByName bnm ((sortFloorLists mac (groupItems bKey fKey items)).map Prod.fst))
      ((sortFloorLists mac (groupItems bKey fKey items)).map Prod.fst) :=
    jsSortBy_perm _ _
  refine (flattenGrouped_rebuildInOrder_perm fnm _ _ hks hnd hinner).trans ?_
  refine (flattenGrouped_sortFloorLists_perm mac (groupItems bKey fKey items)).trans ?_
  exact flattenGrouped_groupItems bKey fKey items

theorem groupAndSort_keys_pairwise {α : Type} (bKey fKey mac : α → String)
    (items : List α) (bnm fnm : List (String × String)) :
    (groupAndSort bKey fKey mac items bnm fnm).sortedBuildingKeys.Pairwise
      (fun a b => localeCompare (jsOr (mapGet bnm a) a) (jsOr (mapGet bnm b) b) ≤ 0) := by
  rw [groupAndSort_keys_eq]
  exact jsSortBy_pairwise_locale (fun k => jsOr (mapGet bnm k) k) _

theorem groupAndSort_groupedData_keys {α : Type} (bKey fKey mac : α → String)
    (items : List α) (bnm fnm : List (String × String)) :
    (groupAndSort bKey fKey mac items bnm fnm).groupedData.map Prod.fst =
      (groupAndSort bKey fKey mac items bnm fnm).sortedBuildingKeys := by
  rw [groupAndSort_grouped_eq, groupAndSort_keys_eq]
  unfold rebuildInOrder
  rw [List.map_map]
  have hid : (Prod.fst ∘ fun bId : String =>
      (bId, (sortKeysByName fnm
          (((mapGet (sortFloorLists mac (groupItems bKey fKey items)) bId).getD []).map
            Prod.fst)).map
        (fun fId => (fId,
          (mapGet ((mapGet (sortFloorLists mac (groupItems bKey fKey items)) bId).getD [])
            fId).getD [])))) = id := rfl
  rw [hid, List.map_id]

theorem groupAndSort_floorkeys_pairwise {α : Type} (bKey fKey mac : α → String)
    (items : List α) (bnm fnm : List (String × String)) :
    ∀ p ∈ (groupAndSort bKey fKey mac items bnm fnm).groupedData,
      (p.2.map Prod.fst).Pairwise
        (fun a b => localeCompare (jsOr (mapGet fnm a) a) (jsOr (mapGet fnm b) b) ≤ 0) := by
  intro p hp
  rw [groupAndSort_grouped_eq] at hp
  unfold rebuildInOrder at hp
  obtain ⟨b, _, rfl⟩ := List.mem_map.mp hp
  have hid : (Prod.fst ∘ fun fId : String =>
      (fId, (mapGet ((mapGet (sortFloorLists mac (groupItems bKey fKey items)) b).getD [])
        fId).getD [])) = id := rfl
  simp only [List.map_map, hid, List.map_id]
  exact jsSortBy_pairwise_locale (fun k => jsOr (mapGet fnm k) k)
    (((mapGet (sortFloorLists mac (groupItems bKey fKey items)) b).getD []).map Prod.fst)

theorem groupAndSort_floorlists_pairwise {α : Type} (bKey fKey mac : α → String)
    (items : List α) (bnm fnm : List (String × String)) :
    ∀ p ∈ (groupAndSort bKey fKey mac items bnm fnm).groupedData, ∀ q ∈ p.2,
      q.2.Pairwise (fun a b => localeCompare (mac a) (mac b) ≤ 0) := by
  intro p hp q hq
  rw [groupAndSort_grouped_eq] at hp
  unfold rebuildInOrder at hp
  obtain ⟨b, _, rfl⟩ := List.mem_map.mp hp
  simp only at hq
  obtain ⟨f, _, rfl⟩ := List.mem_map.mp hq
  simp only
  rcases h : mapGet ((mapGet (sortFloorLists mac (groupItems bKey fKey items)) b).getD []) f
    with _ | v
  · simp
  · simp only [Option.getD_some]
    have hv := mem_of_mapGet_eq_some h
    rcases hgb : mapGet (sortFloorLists mac (groupItems bKey fKey items)) b with _ | w
    · rw [hgb] at hv; simp at hv
    · rw [hgb] at hv
      simp only [Option.getD_some] at hv
      rw [mapGet_sortFloorLists] at hgb
      rcases hg0b : mapGet (groupItems bKey fKey items) b with _ | w0
      · rw [hg0b] at hgb; simp at hgb
      · rw [hg0b] at hgb
        simp only [Option.map_some', Option.some.injEq] at hgb
        subst hgb
        obtain ⟨q0, _, heq⟩ := List.mem_map.mp hv
        have hveq : v = jsSortBy (fun a c => localeCompare (mac a) (mac c)) q0.2 := by
          have := congrArg Prod.snd heq
          simpa using this.symm
        rw [hveq]
        exact jsSortBy_pairwise_locale mac q0.2

theorem groupAndSort_mem_bucket {α : Type} (bKey fKey mac : α → String)
    (items : List α) (bnm fnm : List (String × String)) {x : α} (hx : x ∈ items) :
    x ∈ bucket (groupAndSort bKey fKey mac items bnm fnm).groupedData
      (bKey x) (fKey x) := by
  have h0 := mem_bucket_groupItems bKey fKey items hx
  unfold bucket at h0
  rcases hbm0 : mapGet (groupItems bKey fKey items) (bKey x) with _ | bm0
  · rw [hbm0] at h0
    simp only [Option.getD_none] at h0
    rw [show mapGet ([] : List (String × List α)) (fKey x) = none from rfl] at h0
    simp at h0
  rw [hbm0] at h0
  simp only [Option.getD_some] at h0
  rcases hfl : mapGet bm0 (fKey x) with _ | fl
  · rw [hfl] at h0; simp at h0
  rw [hfl] at h0
  simp only [Option.getD_some] at h0
  have hbm : mapGet (sortFloorLists mac (groupItems bKey fKey items)) (bKey x) =
      some (bm0.map (fun q => (q.1, jsSortBy (fun a c => localeCompare (mac a) (mac c)) q.2))) := by
    rw [mapGet_sortFloorLists, hbm0]
    rfl
  have hfl' : mapGet (bm0.map (fun q =>
        (q.1, jsSortBy (fun a c => localeCompare (mac a) (mac c)) q.2))) (fKey x) =
      some (jsSortBy (fun a c => localeCompare (mac a) (mac c)) fl) := by
    rw [mapGet_map, hfl]
    rfl
  have hxin : x ∈ jsSortBy (fun a c => localeCompare (mac a) (mac c)) fl :=
    ((jsSortBy_perm _ fl).mem_iff).mpr h0
  have hnodup := groupItems_nodup bKey fKey items
  have hnd : ((sortFloorLists mac (groupItems bKey fKey items)).map Prod.fst).Nodup := by
    rw [sortFloorLists_keys]; exact hnodup.1
  have hks : List.Perm
      (sortKeysByName bnm ((sortFloorLists mac (groupItems bKey fKey items)).map Prod.fst))
      ((sortFloorLists mac (groupItems bKey fKey items)).map Prod.fst) :=
    jsSortBy_perm _ _
  have hksnd : (sortKeysByName bnm
      ((sortFloorLists mac (groupItems bKey fKey items)).map Prod.fst)).Nodup :=
    (hks.nodup_iff).mpr hnd
  have hbmem : bKey x ∈ sortKeysByName bnm
      ((sortFloorLists mac (groupItems bKey fKey items)).map Prod.fst) :=
    (hks.mem_iff).mpr (mem_keys_of_mapGet_eq_some hbm)
  rw [groupAndSort_grouped_eq]
  unfold bucket rebuildInOrder
  rw [mapGet_keys_map
    (fun bId => (sortKeysByName fnm
        (((mapGet (sortFloorLists mac (groupItems bKey fKey items)) bId).getD []).map Prod.fst)).map
      (fun fId => (fId,
        (mapGet ((mapGet (sortFloorLists mac (groupItems bKey fKey items)) bId).getD []) fId).getD [])))
    _ hksnd hbmem]
  simp only [Option.getD_some]
  rw [hbm]
  simp only [Option.getD_some]
  have hbmnd : ((bm0.map (fun q =>
      (q.1, jsSortBy (fun a c => localeCompare (mac a) (mac c)) q.2))).map Prod.fst).Nodup := by
    have := hnodup.2 (bKey x, bm0) (mem_of_mapGet_eq_some hbm0)
    simpa [List.map_map] using this
  have hfk : List.Perm
      (sortKeysByName fnm ((bm0.map (fun q =>
        (q.1, jsSortBy (fun a c => localeCompare (mac a) (mac c)) q.2))).map Prod.fst))
      ((bm0.map (fun q =>
        (q.1, jsSortBy (fun a c => localeCompare (mac a) (mac c)) q.2))).map Prod.fst) :=
    jsSortBy_perm _ _
  have hfknd := (hfk.nodup_iff).mpr hbmnd
  have hfmem : fKey x ∈ sortKeysByName fnm ((bm0.map (fun q =>
      (q.1, jsSortBy (fun a c => localeCompare (mac a) (mac c)) q.2))).map Prod.fst) :=
    (hfk.mem_iff).mpr (mem_keys_of_mapGet_eq_some hfl')
  rw [mapGet_keys_map
    (fun fId =>
      (mapGet (bm0.map (fun q =>
        (q.1, jsSortBy (fun a c => localeCompare (mac a) (mac c)) q.2))) fId).getD [])
    _ hfknd hfmem]
  simp only [Option.getD_some]
  rw [hfl']
  simp only [Option.getD_some]
  exact hxin

/-- C5: in the reconciliation output of both pages' grouping, building
group keys are ordered by resolved display name (falling back to the raw
id when no name is found) under the locale-aware comparison, the nested
structure iterates in exactly that key order, and floor keys within each
building are ordered the same way; on the claims' example (building ids
[B2, B1, B2], names B1 ↦ Alpha, B2 ↦ Beta) the building order is [B1, B2]
for either input order. -/
theorem c5_building_and_floor_order :
    (∀ (devices : List DeviceRec) (buildings : List BuildingRec) (floors : List FloorRec),
      (groupedAndSortedData devices buildings floors).sortedBuildingKeys.Pairwise
        (fun a b =>
          localeCompare (jsOr (mapGet (buildingNameMap buildings) a) a)
            (jsOr (mapGet (buildingNameMap buildings) b) b) ≤ 0) ∧
      (groupedAndSortedData devices buildings floors).groupedData.map Prod.fst =
        (groupedAndSortedData devices buildings floors).sortedBuildingKeys ∧
      ∀ p ∈ (groupedAndSortedData devices buildings floors).groupedData,
        (p.2.map Prod.fst).Pairwise
          (fun a b =>
            localeCompare (jsOr (mapGet (floorNameMap floors) a) a)
              (jsOr (mapGet (floorNameMap floors) b) b) ≤ 0)) ∧
    (groupedAndSortedData [devB2a, devB1, devB2b] namedBuildings []).sortedBuildingKeys =
      ["B1", "B2"] ∧
    (groupedAndSortedData [devB1, devB2a, devB2b] namedBuildings []).sortedBuildingKeys =
      ["B1", "B2"] := by
  refine ⟨?_, by decide, by decide⟩
  intro devices buildings floors
  exact ⟨groupAndSort_keys_pairwise _ _ _ _ _ _,
    groupAndSort_groupedData_keys _ _ _ _ _ _,
    groupAndSort_floorkeys_pairwise _ _ _ _ _ _⟩

theorem c5_building_and_floor_order_witness :
    (("B1", [("F1", [devB1])]) ∈
      (groupedAndSortedData [devB1] namedBuildings []).groupedData) ∧
    ((("B1", [("F1", [devB1])]) :
        String × List (String × List DeviceRec)).2.map Prod.fst).Pairwise
      (fun a b =>
        localeCompare (jsOr (mapGet (floorNameMap []) a) a)
          (jsOr (mapGet (floorNameMap []) b) b) ≤ 0) :=
  ⟨by decide,
    (c5_building_and_floor_order.1 [devB1] namedBuildings []).2.2
      ("B1", [("F1", [devB1])]) (by decide)⟩

/-- C6: the reconciliation never drops an input item: on both pages the
items across all output groups are a permutation of the input list, every
item lands in the bucket addressed by its resolved building and floor keys,
and an absent (or empty) building id resolves to the sentinel
"Unknown Building" (floor id likewise to "Unknown Floor"). -/
theorem c6_no_item_dropped :
    (∀ (devices : List DeviceRec) (buildings : List BuildingRec) (floors : List FloorRec),
      List.Perm
        (flattenGrouped (groupedAndSortedData devices buildings floors).groupedData)
        devices) ∧
    (∀ (devices : List DeviceRec) (buildings : List BuildingRec) (floors : List FloorRec)
      (d : DeviceRec), d ∈ devices →
        d ∈ bucket (groupedAndSortedData devices buildings floors).groupedData
          (deviceBKey d) (deviceFKey d)) ∧
    (∀ d : DeviceRec, (d.buildingid = none ∨ d.buildingid = some "") →
      deviceBKey d = "Unknown Building") ∧
    (∀ d : DeviceRec, (d.floorid = none ∨ d.floorid = some "") →
      deviceFKey d = "Unknown Floor") ∧
    (∀ (clients : List ClientDataItem) (buildings : List BuildingRec)
      (floors : List FloorRec),
      List.Perm
        (flattenGrouped
          (groupedAndSortedClientData clients buildings floors).groupedData)
        clients) ∧
    (∀ (clients : List ClientDataItem) (buildings : List BuildingRec)
      (floors : List FloorRec) (c : ClientDataItem), c ∈ clients →
        c ∈ bucket (groupedAndSortedClientData clients buildings floors).groupedData
          (clientBKey c) (clientFKey c)) ∧
    (∀ c : ClientDataItem,
      (c.clientConfig.buildingId = none ∨ c.clientConfig.buildingId = some "") →
      clientBKey c = "Unknown Building") := by
  refine ⟨?_, ?_, ?_, ?_, ?_, ?_, ?_⟩
  · intro devices buildings floors
    exact groupAndSort_flatten_perm _ _ _ _ _ _
  · intro devices buildings floors d hd
    exact groupAndSort_mem_bucket _ _ _ _ _ _ hd
  · intro d h
    rcases h with h | h <;> simp [deviceBKey, jsOr, h]
  · intro d h
    rcases h with h | h <;> simp [deviceFKey, jsOr, h]
  · intro clients buildings floors
    exact groupAndSort_flatten_perm _ _ _ _ _ _
  · intro clients buildings floors c hc
    exact groupAndSort_mem_bucket _ _ _ _ _ _ hc
  · intro c h
    rcases h with h | h <;> simp [clientBKey, jsOr, h]

theorem c6_no_item_dropped_witness :
    (devNoBuilding ∈ [devNoBuilding]) ∧
    devNoBuilding ∈ bucket
      (groupedAndSortedData [devNoBuilding] [] []).groupedData
      (deviceBKey devNoBuilding) (deviceFKey devNoBuilding) ∧
    (devNoBuilding.buildingid = none ∨ devNoBuilding.buildingid = some "") ∧
    deviceBKey devNoBuilding = "Unknown Building" :=
  ⟨by decide,
    c6_no_item_dropped.2.1 [devNoBuilding] [] [] devNoBuilding (by decide),
    Or.inl rfl,
    c6_no_item_dropped.2.2.1 devNoBuilding (Or.inl rfl)⟩

/-- C7 counterexample: with MAC addresses "a0:..." and "B0:...", the
devices-page floor list sorts as [a0, B0] (localeCompare puts the
lowercase-lettered MAC first), while case-sensitive lexicographic
(code-unit) sorting puts "B0:..." first — so the comparison used is not the
case-sensitive lexicographic one. -/
theorem c7_counterexample :
    bucket (groupedAndSortedData [devMacUpper, devMacLower] [] []).groupedData "B" "F" =
      [devMacLower, devMacUpper] ∧
    jsSortBy (fun a b => codeUnitCompare a.macAddress b.macAddress)
      [devMacUpper, devMacLower] = [devMacUpper, devMacLower] ∧
    bucket (groupedAndSortedData [devMacUpper, devMacLower] [] []).groupedData "B" "F" ≠
      jsSortBy (fun a b => codeUnitCompare a.macAddress b.macAddress)
        [devMacUpper, devMacLower] := by
  refine ⟨by decide, by decide, by decide⟩

/-- C7 (amended): within each floor-level group, items are sorted by MAC
address ascending under `localeCompare` (locale-aware, primary strength
case-insensitive), not under case-sensitive code-unit order; the claims'
example ["b0:...", "A0:..."] still comes out as ["A0:...", "b0:..."]
because the two comparisons happen to agree on that pair. -/
theorem c7_mac_sort_order :
    (∀ (devices : List DeviceRec) (buildings : List BuildingRec) (floors : List FloorRec),
      ∀ p ∈ (groupedAndSortedData devices buildings floors).groupedData, ∀ q ∈ p.2,
        q.2.Pairwise (fun a b => localeCompare a.macAddress b.macAddress ≤ 0)) ∧
    (∀ (clients : List ClientDataItem) (buildings : List BuildingRec)
      (floors : List FloorRec),
      ∀ p ∈ (groupedAndSortedClientData clients buildings floors).groupedData,
        ∀ q ∈ p.2,
          q.2.Pairwise (fun a b => localeCompare (clientMac a) (clientMac b) ≤ 0)) ∧
    bucket (groupedAndSortedData [devMacB0, devMacA0] [] []).groupedData "B" "F" =
      [devMacA0, devMacB0] := by
  refine ⟨?_, ?_, by decide⟩
  · intro devices buildings floors
    exact groupAndSort_floorlists_pairwise _ _ _ _ _ _
  · intro clients buildings floors
    exact groupAndSort_floorlists_pairwise _ _ _ _ _ _

theorem c7_mac_sort_order_witness :
    (("B", [("F", [devMacA0, devMacB0])]) ∈
      (groupedAndSortedData [devMacB0, devMacA0] [] []).groupedData) ∧
    (("F", [devMacA0, devMacB0]) ∈
      (("B", [("F", [devMacA0, devMacB0])]) :
        String × List (String × List DeviceRec)).2) ∧
    (([devMacA0, devMacB0] : List DeviceRec).Pairwise
      (fun a b => localeCompare a.macAddress b.macAddress ≤ 0)) :=
  ⟨by decide, by decide,
    c7_mac_sort_order.1 [devMacB0, devMacA0] [] []
      ("B", [("F", [devMacA0, devMacB0])]) (by decide)
      ("F", [devMacA0, devMacB0]) (by decide)⟩
